import Mathlib

/-
Verification development for the collaborative drawing canvas server.

Shallow embedding of the server-side operation-log engine:
  - `DrawingState` and its methods `addOperation`, `getUserLastOp`, `undo`,
    `redo`, `operationsOverlap`, `getPathBoundingBox`
    (src/client/canvas.js, class DrawingState — served to the server as
    drawing-state.js via the require in src/server/server.js), and
  - the mutating cases of `handleMessage` (src/server/server.js).

Modelling conventions:
  - JS numbers used as coordinates/widths are modelled as `Int`; the logical
    clock `Date.now()` is modelled as an explicit `now : Nat` argument
    (`Date.now()` is nondecreasing across calls but may repeat).
  - A JS `Map` is modelled as an association list with JS `Map` semantics:
    `aget` reads the entry for a key, `aupdate` rewrites the entry in place
    (JS code mutates the stored array through the reference returned by
    `Map.get`), `mapPushId` is the `if (!has) set(k, []); get(k).push(id)`
    idiom, which appends a fresh entry in insertion order.
  - A possibly-missing JS field (`op.path` may be absent on a malformed op)
    is an `Option`; the JS falsy-default `op.width || 4` is `jsWidth`.
-/

namespace Collab

structure Point where
  x : Int
  y : Int
deriving DecidableEq

structure Box where
  minX : Int
  maxX : Int
  minY : Int
  maxY : Int
deriving DecidableEq

/-- Raw stroke data as sent by a client in a `draw` message (`msg.op`). -/
structure RawOp where
  path : Option (List Point)
  color : String
  width : Int
  mode : String
deriving DecidableEq

/-- An operation recorded in the log, as built by `addOperation`
(the source also stores a constant field `type: 'draw'`, omitted here). -/
structure Op where
  opId : Nat
  userId : String
  path : Option (List Point)
  color : String
  width : Int
  mode : String
  timestamp : Nat
deriving DecidableEq

/-- Association-list read, JS `Map.prototype.get` (keys are unique in a JS
`Map`; we read the first entry with the key). -/
def aget : List (String × List Nat) → String → Option (List Nat)
  | [], _ => none
  | e :: rest, k => if e.1 = k then some e.2 else aget rest k

/-- Rewrite the entry for a key in place (the JS code mutates the array
returned by `Map.get`); identity when the key is absent. -/
def aupdate : List (String × List Nat) → String → (List Nat → List Nat) →
    List (String × List Nat)
  | [], _, _ => []
  | e :: rest, k, f =>
      if e.1 = k then (e.1, f e.2) :: rest else e :: aupdate rest k f

/-- The JS idiom `if (!m.has(k)) m.set(k, []); m.get(k).push(id)`:
append `id` to the entry for `k`, creating the entry (in insertion order)
when absent. -/
def mapPushId (m : List (String × List Nat)) (k : String) (id : Nat) :
    List (String × List Nat) :=
  match aget m k with
  | some _ => aupdate m k (fun l => l ++ [id])
  | none => m ++ [(k, [id])]

/-- The per-room operation log, source class `DrawingState`. -/
structure DrawingState where
  ops : List Op
  undoStack : List Op
  nextOpId : Nat
  userOperations : List (String × List Nat)
deriving DecidableEq

/-- The state built by `new DrawingState()`. -/
def initState : DrawingState :=
  { ops := [], undoStack := [], nextOpId := 1, userOperations := [] }

/-- JS falsy default `w || 4` on a numeric stroke width (0 is falsy). -/
def jsWidth (w : Int) : Int := if w = 0 then 4 else w

/-- Source `getPathBoundingBox`: fold min/max over the path.  The source
starts the fold from plus/minus Infinity; over a nonempty path that equals
folding from the first point, and the function is only ever invoked on
paths with at least 2 points (guarded in `operationsOverlap`). -/
def getPathBoundingBox : List Point → Box
  | [] => { minX := 0, maxX := 0, minY := 0, maxY := 0 }
  | p :: rest =>
      rest.foldl
        (fun b q =>
          { minX := min b.minX q.x, maxX := max b.maxX q.x,
            minY := min b.minY q.y, maxY := max b.maxY q.y })
        { minX := p.x, maxX := p.x, minY := p.y, maxY := p.y }

/-- Source `operationsOverlap`: returns false when either path is missing
or has fewer than 2 points; otherwise compares the two bounding boxes with
a padding of `max (op1.width || 4) (op2.width || 4)` applied once per
comparison. -/
def operationsOverlap (op1 op2 : Op) : Bool :=
  match op1.path, op2.path with
  | some p1, some p2 =>
      if p1.length < 2 ∨ p2.length < 2 then false
      else
        let box1 := getPathBoundingBox p1
        let box2 := getPathBoundingBox p2
        let padding := max (jsWidth op1.width) (jsWidth op2.width)
        !(decide (box1.maxX + padding < box2.minX) ||
          decide (box2.maxX + padding < box1.minX) ||
          decide (box1.maxY + padding < box2.minY) ||
          decide (box2.maxY + padding < box1.minY))
  | _, _ => false

/-- Source `addOperation`: builds the op with the next identity and the
current clock reading, appends it to `ops` and to the author's per-user
index.  (The source's two trailing `canUndo`/`canRedo` locals are dead
code — computed and discarded — and are omitted.) -/
def DrawingState.addOperation (s : DrawingState) (userId : String)
    (rawOp : RawOp) (now : Nat) : Op × DrawingState :=
  let op : Op :=
    { opId := s.nextOpId, userId := userId, path := rawOp.path,
      color := rawOp.color, width := rawOp.width, mode := rawOp.mode,
      timestamp := now }
  (op,
   { s with
     ops := s.ops ++ [op],
     nextOpId := s.nextOpId + 1,
     userOperations := mapPushId s.userOperations userId op.opId })

/-- Source `getUserLastOp`: last identity in the author's per-user index,
looked up in `ops` (when the index is empty/missing the JS lookup compares
against `undefined` and finds nothing). -/
def DrawingState.getUserLastOp (s : DrawingState) (userId : String) :
    Option Op :=
  let userOps := (aget s.userOperations userId).getD []
  match userOps.getLast? with
  | none => none
  | some lastOpId => s.ops.find? (fun op => op.opId == lastOpId)

/-- Remove the first element satisfying `p`, returning it and the remaining
list; models the source's `findIndex` followed by `splice(opIndex, 1)`. -/
def spliceFirst (p : Op → Bool) : List Op → Option (Op × List Op)
  | [] => none
  | o :: rest =>
      if p o then some (o, rest)
      else
        match spliceFirst p rest with
        | none => none
        | some (r, rest') => some (r, o :: rest')

/-- JS `m.get(u)?.length > 0` (false when the entry is missing). -/
def userHasOps (m : List (String × List Nat)) (u : String) : Bool :=
  decide (0 < ((aget m u).getD []).length)

/-- Result object of `undo` (fields missing on the JS literal of the
unreachable 'Operation not found' branch are modelled as `false`/`none`). -/
structure UndoResult where
  success : Bool
  message : String
  op : Option Op
  canUndo : Bool
  canRedo : Bool
deriving DecidableEq

/-- Result object of `redo`. -/
structure RedoResult where
  success : Bool
  message : String
  op : Option Op
  canUndo : Bool
  canRedo : Bool
deriving DecidableEq

/-- Source `undo`: removes the author's own most recently applied op from
`ops`, pushes it onto `undoStack`, pops the author's per-user index. -/
def DrawingState.undo (s : DrawingState) (u : String) :
    UndoResult × DrawingState :=
  match s.getUserLastOp u with
  | none =>
      ({ success := false, message := "Nothing to undo", op := none,
         canUndo := false,
         canRedo := decide (0 < s.undoStack.length) }, s)
  | some lastOp =>
      match spliceFirst (fun o => o.opId == lastOp.opId) s.ops with
      | none =>
          ({ success := false, message := "Operation not found", op := none,
             canUndo := false, canRedo := false }, s)
      | some (op, ops') =>
          let userOperations' := aupdate s.userOperations u List.dropLast
          let s' : DrawingState :=
            { s with
              ops := ops',
              undoStack := s.undoStack ++ [op],
              userOperations := userOperations' }
          ({ success := true, message := "Operation undone", op := some op,
             canUndo := userHasOps userOperations' u,
             canRedo := true }, s')

/-- Largest index whose op has timestamp at most `t` (the source scans from
the end and breaks at the first hit). -/
def lastLEIdx : List Op → Nat → Option Nat
  | [], _ => none
  | o :: rest, t =>
      match lastLEIdx rest t with
      | some i => some (i + 1)
      | none => if o.timestamp ≤ t then some 0 else none

/-- Source reinsertion scan in `redo`: `insertIndex` starts at `ops.length`
and is only lowered when some op has timestamp at most the candidate's, so
a candidate older than every op falls through to the end of the list. -/
def findInsertIndex (ops : List Op) (t : Nat) : Nat :=
  match lastLEIdx ops t with
  | some i => i + 1
  | none => ops.length

/-- JS `splice(i, 0, x)`: insert at index `i` (append when out of range). -/
def insertAt : Nat → Op → List Op → List Op
  | 0, x, l => x :: l
  | _ + 1, x, [] => [x]
  | n + 1, x, a :: l => a :: insertAt n x l

/-- The source's `latestOpTimestamp` local in `redo`:
`this.ops.length > 0 ? this.ops[this.ops.length - 1].timestamp : 0`. -/
def latestTimestamp (ops : List Op) : Nat :=
  match ops.getLast? with
  | some o => o.timestamp
  | none => 0

/-- The source's conflict test in `redo`: only when the candidate is older
than the op at the end of `ops` does it scan for a strictly newer,
spatially overlapping op (`hasNewerOps`). -/
def hasNewerOverlap (s : DrawingState) (op : Op) : Bool :=
  if op.timestamp < latestTimestamp s.ops then
    s.ops.any (fun e =>
      decide (op.timestamp < e.timestamp) && operationsOverlap e op)
  else false

/-- Source `redo`: scans `undoStack` from the top for the author's most
recent undone op, refuses when a strictly newer op in `ops` overlaps it,
otherwise pops the stack (note: the source pops the LAST stack element, not
necessarily the one it found), reinserts and reindexes the candidate. -/
def DrawingState.redo (s : DrawingState) (u : String) :
    RedoResult × DrawingState :=
  if s.undoStack.length = 0 then
    ({ success := false, message := "Nothing to redo", op := none,
       canUndo := userHasOps s.userOperations u, canRedo := false }, s)
  else
    match s.undoStack.reverse.find? (fun o => o.userId == u) with
    | none =>
        ({ success := false, message := "No operations to redo", op := none,
           canUndo := userHasOps s.userOperations u, canRedo := false }, s)
    | some op =>
        if hasNewerOverlap s op then
          ({ success := false,
             message := "Cannot redo due to newer overlapping operations",
             op := none,
             canUndo := userHasOps s.userOperations u, canRedo := false }, s)
        else
          let undoStack' := s.undoStack.dropLast
          let ops' := insertAt (findInsertIndex s.ops op.timestamp) op s.ops
          let userOperations' := mapPushId s.userOperations u op.opId
          let s' : DrawingState :=
            { s with
              ops := ops',
              undoStack := undoStack',
              userOperations := userOperations' }
          ({ success := true, message := "Operation redone", op := some op,
             canUndo := true,
             canRedo := decide (0 < undoStack'.length) }, s')

/-- Inbound mutating messages (src/server/server.js `handleMessage`). -/
inductive ClientMsg where
  | draw (rawOp : RawOp)
  | undo
  | redo
  | clear
deriving DecidableEq

/-- Outbound effect of handling one message: a reply sent only to the
requesting socket (carrying `success:false` and a message), the room-wide
broadcast of an assigned op, or another room-wide broadcast by type. -/
inductive OutEvent where
  | reply (msgType : String) (message : String)
  | broadcastOp (op : Op)
  | broadcast (msgType : String)
deriving DecidableEq

/-- The mutating cases of source `handleMessage`.  `roomFound` is whether
`rooms.findBySocket(ws)` resolved a room for the sending connection.  Note
the `draw` case performs no structural validation of `msg.op`, and its
no-room branch logs and returns with no reply, while `undo`/`redo`/`clear`
reply with a 'Not in a room' failure. -/
def handleMessage (roomFound : Bool) (s : DrawingState) (u : String)
    (m : ClientMsg) (now : Nat) : DrawingState × List OutEvent :=
  match m with
  | .draw rawOp =>
      if roomFound then
        let r := s.addOperation u rawOp now
        (r.2, [.broadcastOp r.1])
      else (s, [])
  | .undo =>
      if roomFound then
        let r := s.undo u
        if r.1.success then
          (r.2, [.broadcast "undo", .broadcast "state-update"])
        else (r.2, [.reply "undo" r.1.message])
      else (s, [.reply "undo" "Not in a room"])
  | .redo =>
      if roomFound then
        let r := s.redo u
        if r.1.success then
          (r.2, [.broadcast "redo", .broadcast "state-update"])
        else (r.2, [.reply "redo" r.1.message])
      else (s, [.reply "redo" "Not in a room"])
  | .clear =>
      if roomFound then
        (initState, [.broadcast "clear", .broadcast "state-update"])
      else (s, [.reply "clear" "Not in a room"])

/-- Log states reachable by any sequence of `addOperation`, `undo` and
`redo` calls from a fresh log; the `Nat` component is the last clock
reading, and `Date.now()` is nondecreasing, so an `addOperation` step may
reuse or increase it. -/
inductive Reachable : DrawingState → Nat → Prop where
  | init : Reachable initState 0
  | add {s c now u rawOp} : Reachable s c → c ≤ now →
      Reachable (s.addOperation u rawOp now).2 now
  | undoStep {s c u} : Reachable s c → Reachable (s.undo u).2 c
  | redoStep {s c u} : Reachable s c → Reachable (s.redo u).2 c

/-- Well-formedness of a log state, from the spec's data-model invariants:
every identity in a user's per-user index belongs to an applied op in `ops`
authored by that user. -/
def WF (s : DrawingState) : Prop :=
  (∀ op ∈ s.ops, ∀ e ∈ s.userOperations, op.opId ∈ e.2 → op.userId = e.1) ∧
  (∀ e ∈ s.userOperations, ∀ id ∈ e.2, ∃ op ∈ s.ops, op.opId = id)

instance (s : DrawingState) : Decidable (WF s) := by
  unfold WF; infer_instance

/-- Timestamps of a list of ops are sorted ascending (adjacent pairs). -/
def timestampsSorted : List Op → Bool
  | [] => true
  | [_] => true
  | a :: b :: rest =>
      decide (a.timestamp ≤ b.timestamp) && timestampsSorted (b :: rest)

/-- An op with a missing path or a path of fewer than 2 points. -/
def degenerateOp (o : Op) : Bool :=
  match o.path with
  | none => true
  | some p => decide (p.length < 2)

/-! Basic lemmas about the list and association-map helpers. -/

theorem spliceFirst_pred {p : Op → Bool} :
    ∀ {l : List Op} {o : Op} {l' : List Op},
      spliceFirst p l = some (o, l') → p o = true := by
  intro l
  induction l with
  | nil => intro o l' h; simp [spliceFirst] at h
  | cons a rest ih =>
      intro o l' h
      by_cases ha : p a
      · simp [spliceFirst, ha] at h
        rw [← h.1]; exact ha
      · simp [spliceFirst, ha] at h
        cases hr : spliceFirst p rest with
        | none => rw [hr] at h; simp at h
        | some r =>
            rw [hr] at h
            simp at h
            rw [← h.1]
            exact ih hr

theorem spliceFirst_perm {p : Op → Bool} :
    ∀ {l : List Op} {o : Op} {l' : List Op},
      spliceFirst p l = some (o, l') → l.Perm (o :: l') := by
  intro l
  induction l with
  | nil => intro o l' h; simp [spliceFirst] at h
  | cons a rest ih =>
      intro o l' h
      by_cases ha : p a
      · simp [spliceFirst, ha] at h
        rw [← h.1, ← h.2]
      · simp [spliceFirst, ha] at h
        cases hr : spliceFirst p rest with
        | none => rw [hr] at h; simp at h
        | some r =>
            rw [hr] at h
            simp at h
            have hperm := ih hr
            rw [← h.1, ← h.2]
            exact (hperm.cons a).trans (List.Perm.swap r.1 a r.2)

theorem spliceFirst_mem {p : Op → Bool} {l : List Op} {o : Op} {l' : List Op}
    (h : spliceFirst p l = some (o, l')) : o ∈ l :=
  (spliceFirst_perm h).mem_iff.mpr (List.mem_cons_self o l')

theorem spliceFirst_isSome {p : Op → Bool} {l : List Op} {a : Op}
    (ha : a ∈ l) (hp : p a = true) : ∃ r, spliceFirst p l = some r := by
  induction l with
  | nil => simp at ha
  | cons b rest ih =>
      by_cases hb : p b
      · exact ⟨(b, rest), by simp [spliceFirst, hb]⟩
      · have hmem : a ∈ rest := by
          rcases List.mem_cons.mp ha with h | h
          · exact absurd (h ▸ hp) (by simp [hb])
          · exact h
        obtain ⟨r, hr⟩ := ih hmem
        exact ⟨(r.1, b :: r.2), by simp [spliceFirst, hb, hr]⟩

theorem insertAt_perm : ∀ (n : Nat) (x : Op) (l : List Op),
    (insertAt n x l).Perm (x :: l) := by
  intro n
  induction n with
  | zero => intro x l; simp [insertAt]
  | succ m ih =>
      intro x l
      cases l with
      | nil => simp [insertAt]
      | cons a rest =>
          exact ((ih x rest).cons a).trans (List.Perm.swap x a rest)

theorem aget_aupdate_self (m : List (String × List Nat)) (k : String)
    (f : List Nat → List Nat) :
    aget (aupdate m k f) k = (aget m k).map f := by
  induction m with
  | nil => simp [aget, aupdate]
  | cons e rest ih =>
      by_cases he : e.1 = k
      · simp [aget, aupdate, he]
      · simp [aget, aupdate, he, ih]

theorem aupdate_aupdate (m : List (String × List Nat)) (k : String)
    (f g : List Nat → List Nat) :
    aupdate (aupdate m k f) k g = aupdate m k (fun l => g (f l)) := by
  induction m with
  | nil => simp [aupdate]
  | cons e rest ih =>
      by_cases he : e.1 = k
      · simp [aupdate, he]
      · simp [aupdate, he, ih]

theorem aupdate_eq_self {m : List (String × List Nat)} {k : String}
    {l : List Nat} {f : List Nat → List Nat}
    (h : aget m k = some l) (hf : f l = l) : aupdate m k f = m := by
  induction m with
  | nil => simp [aupdate]
  | cons e rest ih =>
      obtain ⟨k0, v0⟩ := e
      by_cases he : k0 = k
      · simp [aget, he] at h
        simp [aupdate, he, h, hf]
      · simp [aget, he] at h
        simp [aupdate, he, ih h]

theorem aget_mem {m : List (String × List Nat)} {k : String} {l : List Nat}
    (h : aget m k = some l) : (k, l) ∈ m := by
  induction m with
  | nil => simp [aget] at h
  | cons e rest ih =>
      obtain ⟨k0, v0⟩ := e
      by_cases he : k0 = k
      · simp [aget, he] at h
        simp [he, h]
      · simp [aget, he] at h
        exact List.mem_cons_of_mem _ (ih h)

theorem dropLast_append_getLast? {l : List Nat} {a : Nat}
    (h : l.getLast? = some a) : l.dropLast ++ [a] = l := by
  induction l with
  | nil => simp at h
  | cons b rest ih =>
      cases rest with
      | nil => simp at h; simp [h]
      | cons c rest' =>
          rw [List.getLast?_cons_cons] at h
          have := ih h
          simp [List.dropLast_cons₂, this]

theorem getLast?_mem {l : List Nat} {a : Nat} (h : l.getLast? = some a) :
    a ∈ l := by
  rw [← dropLast_append_getLast? h]
  simp

theorem exists_getLast?_of_ne_nil {l : List Nat} (h : l ≠ []) :
    ∃ a, l.getLast? = some a := by
  cases l with
  | nil => exact absurd rfl h
  | cons b rest => exact ⟨(b :: rest).getLast (by simp), List.getLast?_eq_getLast _ _⟩

/-! Characterizations of the branches of `undo` and `redo`. -/

theorem getUserLastOp_some {s : DrawingState} {u : String} {lastOp : Op}
    (h : s.getUserLastOp u = some lastOp) :
    ∃ l, aget s.userOperations u = some l ∧
      l.getLast? = some lastOp.opId ∧ lastOp ∈ s.ops := by
  unfold DrawingState.getUserLastOp at h
  cases ha : aget s.userOperations u with
  | none => rw [ha] at h; simp at h
  | some l =>
      rw [ha] at h
      simp only [Option.getD_some] at h
      cases hl : l.getLast? with
      | none => rw [hl] at h; simp at h
      | some id =>
          rw [hl] at h
          refine ⟨l, rfl, ?_, List.mem_of_find?_eq_some h⟩
          have hpred := List.find?_some h
          have : lastOp.opId = id := by simpa using hpred
          rw [hl, this]

theorem undo_success_eq {s : DrawingState} {u : String} {lastOp op : Op}
    {opsr : List Op}
    (hg : s.getUserLastOp u = some lastOp)
    (hs : spliceFirst (fun o => o.opId == lastOp.opId) s.ops = some (op, opsr)) :
    s.undo u =
      ({ success := true, message := "Operation undone", op := some op,
         canUndo := userHasOps (aupdate s.userOperations u List.dropLast) u,
         canRedo := true },
       { s with
         ops := opsr,
         undoStack := s.undoStack ++ [op],
         userOperations := aupdate s.userOperations u List.dropLast }) := by
  unfold DrawingState.undo
  simp only [hg, hs]

theorem undo_success_parts {s : DrawingState} {u : String}
    (h : (s.undo u).1.success = true) :
    ∃ op l, (s.undo u).1.op = some op ∧
      aget s.userOperations u = some l ∧
      l.getLast? = some op.opId ∧
      op ∈ s.ops ∧
      s.ops.Perm (op :: (s.undo u).2.ops) ∧
      (s.undo u).2.undoStack = s.undoStack ++ [op] ∧
      (s.undo u).2.userOperations = aupdate s.userOperations u List.dropLast ∧
      (s.undo u).2.nextOpId = s.nextOpId ∧
      (s.undo u).1.message = "Operation undone" ∧
      (s.undo u).1.canRedo = true := by
  cases hg : s.getUserLastOp u with
  | none => unfold DrawingState.undo at h; simp only [hg] at h; simp at h
  | some lastOp =>
      obtain ⟨l, hl, hlast, hmem⟩ := getUserLastOp_some hg
      cases hs : spliceFirst (fun o => o.opId == lastOp.opId) s.ops with
      | none => unfold DrawingState.undo at h; simp only [hg, hs] at h; simp at h
      | some r =>
          obtain ⟨op, opsr⟩ := r
          have hid : op.opId = lastOp.opId := by
            simpa using spliceFirst_pred hs
          have heq := undo_success_eq hg hs
          refine ⟨op, l, ?_, hl, hid ▸ hlast, spliceFirst_mem hs, ?_, ?_, ?_, ?_, ?_, ?_⟩ <;>
            rw [heq]
          exact spliceFirst_perm hs

theorem undo_failure_state {s : DrawingState} {u : String}
    (h : (s.undo u).1.success = false) : (s.undo u).2 = s := by
  cases hg : s.getUserLastOp u with
  | none => unfold DrawingState.undo; simp only [hg]
  | some lastOp =>
      cases hs : spliceFirst (fun o => o.opId == lastOp.opId) s.ops with
      | none => unfold DrawingState.undo; simp only [hg, hs]
      | some r =>
          obtain ⟨op, opsr⟩ := r
          rw [undo_success_eq hg hs] at h
          simp at h

theorem redo_success_eq {s : DrawingState} {u : String} {op : Op}
    (hlen : ¬ s.undoStack.length = 0)
    (hf : s.undoStack.reverse.find? (fun o => o.userId == u) = some op)
    (hb : hasNewerOverlap s op = false) :
    s.redo u =
      ({ success := true, message := "Operation redone", op := some op,
         canUndo := true,
         canRedo := decide (0 < s.undoStack.dropLast.length) },
       { s with
         ops := insertAt (findInsertIndex s.ops op.timestamp) op s.ops,
         undoStack := s.undoStack.dropLast,
         userOperations := mapPushId s.userOperations u op.opId }) := by
  unfold DrawingState.redo
  simp only [hf, if_neg hlen, hb, Bool.false_eq_true, if_false]

theorem redo_success_parts {s : DrawingState} {u : String}
    (h : (s.redo u).1.success = true) :
    ∃ op, (s.redo u).1.op = some op ∧
      s.undoStack.reverse.find? (fun o => o.userId == u) = some op ∧
      hasNewerOverlap s op = false ∧
      (s.redo u).2.ops = insertAt (findInsertIndex s.ops op.timestamp) op s.ops ∧
      (s.redo u).2.undoStack = s.undoStack.dropLast ∧
      (s.redo u).2.userOperations = mapPushId s.userOperations u op.opId ∧
      (s.redo u).2.nextOpId = s.nextOpId ∧
      (s.redo u).1.message = "Operation redone" := by
  by_cases hlen : s.undoStack.length = 0
  · unfold DrawingState.redo at h; rw [if_pos hlen] at h; simp at h
  · cases hf : s.undoStack.reverse.find? (fun o => o.userId == u) with
    | none =>
        unfold DrawingState.redo at h
        rw [if_neg hlen] at h; simp only [hf] at h; simp at h
    | some op =>
        cases hb : hasNewerOverlap s op with
        | true =>
            unfold DrawingState.redo at h
            rw [if_neg hlen] at h; simp only [hf, hb, if_true] at h; simp at h
        | false =>
            have heq := redo_success_eq hlen hf hb
            refine ⟨op, ?_, ?_, ?_, ?_, ?_, ?_, ?_, ?_⟩
            · rw [heq]
            · rfl
            · exact hb
            · rw [heq]
            · rw [heq]
            · rw [heq]
            · rw [heq]
            · rw [heq]

theorem redo_failure_state {s : DrawingState} {u : String}
    (h : (s.redo u).1.success = false) : (s.redo u).2 = s := by
  by_cases hlen : s.undoStack.length = 0
  · unfold DrawingState.redo; rw [if_pos hlen]
  · cases hf : s.undoStack.reverse.find? (fun o => o.userId == u) with
    | none =>
        unfold DrawingState.redo
        rw [if_neg hlen]; simp only [hf]
    | some op =>
        cases hb : hasNewerOverlap s op with
        | true =>
            unfold DrawingState.redo
            rw [if_neg hlen]; simp only [hf, hb, if_true]
        | false =>
            rw [redo_success_eq hlen hf hb] at h
            simp at h

/-- The conflict branch of `redo` is the only one with its message, and it
returns the state untouched. -/
theorem redo_conflict_parts {s : DrawingState} {u : String}
    (h : (s.redo u).1.message = "Cannot redo due to newer overlapping operations") :
    (s.redo u).2 = s ∧ (s.redo u).1.success = false ∧
    ∃ op, s.undoStack.reverse.find? (fun o => o.userId == u) = some op ∧
      hasNewerOverlap s op = true := by
  by_cases hlen : s.undoStack.length = 0
  · unfold DrawingState.redo at h; rw [if_pos hlen] at h; simp at h
  · cases hf : s.undoStack.reverse.find? (fun o => o.userId == u) with
    | none =>
        unfold DrawingState.redo at h
        rw [if_neg hlen] at h; simp only [hf] at h; simp at h
    | some op =>
        cases hb : hasNewerOverlap s op with
        | true =>
            have h2 : s.redo u =
                ({ success := false,
                   message := "Cannot redo due to newer overlapping operations",
                   op := none,
                   canUndo := userHasOps s.userOperations u,
                   canRedo := false }, s) := by
              unfold DrawingState.redo
              rw [if_neg hlen]; simp only [hf, hb, if_true]
            refine ⟨?_, ?_, op, ?_, ?_⟩
            · rw [h2]
            · rw [h2]
            · rfl
            · exact hb
        | false =>
            rw [redo_success_eq hlen hf hb] at h
            simp at h

theorem undo_none_eq {s : DrawingState} {u : String}
    (hg : s.getUserLastOp u = none) :
    s.undo u =
      ({ success := false, message := "Nothing to undo", op := none,
         canUndo := false,
         canRedo := decide (0 < s.undoStack.length) }, s) := by
  unfold DrawingState.undo
  simp only [hg]

theorem getUserLastOp_none_of_empty {s : DrawingState} {u : String}
    (h : (aget s.userOperations u).getD [] = []) :
    s.getUserLastOp u = none := by
  unfold DrawingState.getUserLastOp
  rw [h]
  rfl

theorem insertAt_mem {n : Nat} {x o : Op} {l : List Op}
    (h : o ∈ insertAt n x l) : o = x ∨ o ∈ l := by
  have := (insertAt_perm n x l).mem_iff.mp h
  simpa using this

/-- Neither `undo` nor `redo` creates operations: every op in the resulting
state was already in `ops` or `undoStack`. -/
theorem undo_state_mem {s : DrawingState} {u : String} {o : Op}
    (h : o ∈ (s.undo u).2.ops ∨ o ∈ (s.undo u).2.undoStack) :
    o ∈ s.ops ∨ o ∈ s.undoStack := by
  cases hsucc : (s.undo u).1.success with
  | false => rw [undo_failure_state hsucc] at h; exact h
  | true =>
      obtain ⟨op, l, _, _, _, hmem, hperm, hstack, _⟩ :=
        undo_success_parts hsucc
      rcases h with h | h
      · exact Or.inl (hperm.mem_iff.mpr (List.mem_cons_of_mem op h))
      · rw [hstack] at h
        rcases List.mem_append.mp h with h | h
        · exact Or.inr h
        · simp at h
          exact Or.inl (h ▸ hmem)

theorem redo_state_mem {s : DrawingState} {u : String} {o : Op}
    (h : o ∈ (s.redo u).2.ops ∨ o ∈ (s.redo u).2.undoStack) :
    o ∈ s.ops ∨ o ∈ s.undoStack := by
  cases hsucc : (s.redo u).1.success with
  | false => rw [redo_failure_state hsucc] at h; exact h
  | true =>
      obtain ⟨op, _, hfind, _, hops, hstack, _⟩ := redo_success_parts hsucc
      have hopmem : op ∈ s.undoStack := by
        have := List.mem_of_find?_eq_some hfind
        exact List.mem_reverse.mp this
      rcases h with h | h
      · rw [hops] at h
        rcases insertAt_mem h with h | h
        · exact Or.inr (h ▸ hopmem)
        · exact Or.inl h
      · rw [hstack] at h
        exact Or.inr ((List.dropLast_sublist s.undoStack).subset h)

/-- In any reachable state, every timestamp in the log (applied or undone)
is at most the last clock reading. -/
theorem reachable_timestamp_le {s : DrawingState} {c : Nat}
    (h : Reachable s c) :
    ∀ o : Op, (o ∈ s.ops ∨ o ∈ s.undoStack) → o.timestamp ≤ c := by
  induction h with
  | init => intro o ho; simp [initState] at ho
  | add hr hle ih =>
      intro o ho
      simp only [DrawingState.addOperation] at ho
      rcases ho with ho | ho
      · rcases List.mem_append.mp ho with ho | ho
        · exact le_trans (ih o (Or.inl ho)) hle
        · simp at ho
          rw [ho]
      · exact le_trans (ih o (Or.inr ho)) hle
  | undoStep hr ih => intro o ho; exact ih o (undo_state_mem ho)
  | redoStep hr ih => intro o ho; exact ih o (redo_state_mem ho)

/-- A true overlap needs two paths of at least 2 points on both sides. -/
theorem operationsOverlap_nondegenerate {a b : Op}
    (h : operationsOverlap a b = true) :
    degenerateOp a = false ∧ degenerateOp b = false := by
  unfold operationsOverlap at h
  cases ha : a.path with
  | none => simp [ha] at h
  | some p1 =>
      cases hb : b.path with
      | none => simp [ha, hb] at h
      | some p2 =>
          simp only [ha, hb] at h
          by_cases hlen : p1.length < 2 ∨ p2.length < 2
          · rw [if_pos hlen] at h; simp at h
          · constructor <;> simp [degenerateOp, ha, hb] <;> omega

theorem operationsOverlap_degenerate {a b : Op}
    (h : degenerateOp a = true ∨ degenerateOp b = true) :
    operationsOverlap a b = false := by
  cases hov : operationsOverlap a b with
  | false => rfl
  | true =>
      obtain ⟨h1, h2⟩ := operationsOverlap_nondegenerate hov
      rcases h with h | h
      · rw [h1] at h; exact absurd h (by simp)
      · rw [h2] at h; exact absurd h (by simp)

theorem mapPushId_aupdate_dropLast {m : List (String × List Nat)}
    {u : String} {l : List Nat} {id : Nat}
    (hl : aget m u = some l) (hlast : l.getLast? = some id) :
    mapPushId (aupdate m u List.dropLast) u id = m := by
  have hget : aget (aupdate m u List.dropLast) u = some l.dropLast := by
    rw [aget_aupdate_self, hl]; rfl
  unfold mapPushId
  rw [hget, aupdate_aupdate]
  exact aupdate_eq_self hl (by rw [dropLast_append_getLast? hlast])

/-! Concrete fixtures used by counterexamples and witnesses. -/

/-- A stroke near the origin. -/
def rawA : RawOp :=
  { path := some [⟨0, 0⟩, ⟨10, 10⟩], color := "#000000", width := 4,
    mode := "brush" }

/-- A stroke far away from `rawA` (bounding boxes stay disjoint even after
padding). -/
def rawB : RawOp :=
  { path := some [⟨100, 100⟩, ⟨110, 110⟩], color := "#000000", width := 4,
    mode := "brush" }

/-- A stroke overlapping `rawA`. -/
def rawC : RawOp :=
  { path := some [⟨5, 5⟩, ⟨15, 15⟩], color := "#000000", width := 4,
    mode := "brush" }

/-- A malformed stroke: its path has no points. -/
def degRaw : RawOp :=
  { path := some [], color := "#000000", width := 0, mode := "brush" }

/-- User A draws at clock 1, then user B draws far away at clock 2. -/
def sAB : DrawingState :=
  ((initState.addOperation "A" rawA 1).2.addOperation "B" rawB 2).2

/-- User A draws at clock 1 and undoes it; user B then draws a stroke at
clock 2 overlapping A's undone stroke, so A's redo conflicts. -/
def sConflict : DrawingState :=
  (((initState.addOperation "A" rawA 1).2.undo "A").2.addOperation "B" rawC 2).2

/-- Only user B ever drew, and B undid that stroke: the undo stack holds
exactly one op, authored by B. -/
def sOnlyB : DrawingState :=
  ((initState.addOperation "B" rawA 1).2.undo "B").2

/--
C2: for a well-formed log state, `undo` is scoped to the requesting
author: when the requester's per-user index is empty it fails with the
NothingToUndo message and leaves the state untouched; otherwise it
succeeds, and the removed operation is authored by the requester, is the
requester's most recently applied operation (its identity is the last
entry of the requester's per-user index), exactly one operation is removed
from `ops`, and every operation of every other author stays in `ops` —
in particular another author's operation is never removed, even when it is
the globally most recent.
-/
theorem C2_undo_per_author_scope (s : DrawingState) (u : String)
    (hwf : WF s) :
    ((aget s.userOperations u).getD [] = [] →
      (s.undo u).1.success = false ∧
      (s.undo u).1.message = "Nothing to undo" ∧
      (s.undo u).2 = s) ∧
    ((aget s.userOperations u).getD [] ≠ [] →
      (s.undo u).1.success = true ∧
      ∃ op, (s.undo u).1.op = some op ∧
        op.userId = u ∧
        ((aget s.userOperations u).getD []).getLast? = some op.opId ∧
        s.ops.Perm (op :: (s.undo u).2.ops) ∧
        (∀ o ∈ s.ops, o.userId ≠ u → o ∈ (s.undo u).2.ops)) := by
  constructor
  · intro hempty
    rw [undo_none_eq (getUserLastOp_none_of_empty hempty)]
    exact ⟨rfl, rfl, rfl⟩
  · intro hne
    cases hag : aget s.userOperations u with
    | none => simp [hag] at hne
    | some l =>
        rw [hag] at hne
        simp only [Option.getD_some] at hne
        obtain ⟨id, hlast⟩ := exists_getLast?_of_ne_nil hne
        obtain ⟨op0, hop0mem, hop0id⟩ :=
          hwf.2 (u, l) (aget_mem hag) id (getLast?_mem hlast)
        have hfex : ∃ lastOp, s.ops.find? (fun o => o.opId == id) = some lastOp := by
          cases hf : s.ops.find? (fun o => o.opId == id) with
          | none =>
              exfalso
              have := List.find?_eq_none.mp hf op0 hop0mem
              simp [hop0id] at this
          | some lastOp => exact ⟨lastOp, rfl⟩
        obtain ⟨lastOp, hfind⟩ := hfex
        have hg : s.getUserLastOp u = some lastOp := by
          unfold DrawingState.getUserLastOp
          rw [hag]
          simp only [Option.getD_some]
          rw [hlast]
          exact hfind
        have hlastid : lastOp.opId = id := by
          simpa using List.find?_some hfind
        have hlmem : lastOp ∈ s.ops := List.mem_of_find?_eq_some hfind
        obtain ⟨⟨op, opsr⟩, hsplice⟩ :=
          @spliceFirst_isSome (fun o => o.opId == lastOp.opId) s.ops lastOp
            hlmem (beq_self_eq_true lastOp.opId)
        have heq := undo_success_eq hg hsplice
        have hopid : op.opId = lastOp.opId := by
          simpa using spliceFirst_pred hsplice
        have hopmem : op ∈ s.ops := spliceFirst_mem hsplice
        have hauthor : op.userId = u := by
          refine hwf.1 op hopmem (u, l) (aget_mem hag) ?_
          rw [hopid, hlastid]
          exact getLast?_mem hlast
        refine ⟨(by rw [heq]), op, (by rw [heq]), hauthor, ?_, ?_, ?_⟩
        · simp only [Option.getD_some]
          rw [hopid, hlastid]
          exact hlast
        · rw [heq]
          exact spliceFirst_perm hsplice
        · intro o homem hne2
          rw [heq]
          have h3 := (spliceFirst_perm hsplice).mem_iff.mp homem
          rcases List.mem_cons.mp h3 with h3 | h3
          · exact absurd (h3 ▸ hauthor) hne2
          · exact h3

/-- C2 witness: in the state where A drew first and B drew second, A's undo
succeeds (removing A's own op even though B's is globally most recent). -/
theorem C2_witness : (sAB.undo "A").1.success = true :=
  (((C2_undo_per_author_scope sAB "A" (by decide)).2) (by decide)).1

/--
C3: whenever `redo` fails with the RedoConflict message, the whole log
state (hence `ops`, `undoStack`, and the per-user index) is returned
exactly unchanged, and the result is a failure.
-/
theorem C3_conflict_leaves_state (s : DrawingState) (u : String)
    (hm : (s.redo u).1.message =
      "Cannot redo due to newer overlapping operations") :
    (s.redo u).2 = s ∧ (s.redo u).1.success = false :=
  ⟨(redo_conflict_parts hm).1, (redo_conflict_parts hm).2.1⟩

/-- C3 witness: a concrete conflicting redo (B drew over A's undone stroke)
fails and leaves the state untouched. -/
theorem C3_witness :
    (sConflict.redo "A").2 = sConflict ∧
    (sConflict.redo "A").1.success = false :=
  C3_conflict_leaves_state sConflict "A" (by decide)

/--
C6 (amended): the reported `canRedo` is only partially author-scoped:
a successful undo reports `true`; a failed undo with the NothingToUndo
message reports whether ANY user's undone operation remains in
`undoStack`; a successful redo reports whether ANY user's undone operation
remains after the pop; a failed redo reports `false`.
-/
theorem C6_canRedo_reporting (s : DrawingState) (u : String) :
    ((s.undo u).1.success = true → (s.undo u).1.canRedo = true) ∧
    ((s.undo u).1.message = "Nothing to undo" →
      (s.undo u).1.canRedo = decide (0 < s.undoStack.length)) ∧
    ((s.redo u).1.success = true →
      (s.redo u).1.canRedo = decide (0 < (s.redo u).2.undoStack.length)) ∧
    ((s.redo u).1.success = false → (s.redo u).1.canRedo = false) := by
  refine ⟨?_, ?_, ?_, ?_⟩
  · intro h
    obtain ⟨_, _, _, _, _, _, _, _, _, _, _, hcr⟩ := undo_success_parts h
    exact hcr
  · intro h
    cases hg : s.getUserLastOp u with
    | none => rw [undo_none_eq hg]
    | some lastOp =>
        cases hsp : spliceFirst (fun o => o.opId == lastOp.opId) s.ops with
        | none =>
            unfold DrawingState.undo at h
            simp only [hg, hsp] at h
            have h2 : ("Operation not found" : String) = "Nothing to undo" := h
            exact absurd h2 (by decide)
        | some r =>
            obtain ⟨op, opsr⟩ := r
            rw [undo_success_eq hg hsp] at h
            have h2 : ("Operation undone" : String) = "Nothing to undo" := h
            exact absurd h2 (by decide)
  · intro h
    obtain ⟨op, _, hfind, hb, _, hstack, _⟩ := redo_success_parts h
    have hlen : ¬ s.undoStack.length = 0 := by
      intro h0
      rw [List.length_eq_zero.mp h0] at hfind
      simp at hfind
    rw [redo_success_eq hlen hfind hb]
  · intro h
    by_cases hlen : s.undoStack.length = 0
    · unfold DrawingState.redo
      rw [if_pos hlen]
    · cases hf : s.undoStack.reverse.find? (fun o => o.userId == u) with
      | none =>
          unfold DrawingState.redo
          rw [if_neg hlen]
          simp only [hf]
      | some op =>
          cases hb : hasNewerOverlap s op with
          | true =>
              unfold DrawingState.redo
              rw [if_neg hlen]
              simp only [hf, hb, if_true]
          | false =>
              rw [redo_success_eq hlen hf hb] at h
              simp at h

/-- C6 counterexample: only B's undone op is on the stack, yet A's failed
undo reports `canRedo = true` although no undone operation authored by A
remains — refuting the claimed author-scoped iff. -/
theorem C6_counterexample :
    (sOnlyB.undo "A").1.canRedo = true ∧
    sOnlyB.undoStack.map Op.userId = ["B"] := by decide

/-- C6 witness: both undo branches of the amended statement, at concrete
states. -/
theorem C6_witness :
    (sAB.undo "A").1.canRedo = true ∧
    (sOnlyB.undo "A").1.canRedo = decide (0 < sOnlyB.undoStack.length) :=
  ⟨(C6_canRedo_reporting sAB "A").1 (by decide),
   (C6_canRedo_reporting sOnlyB "A").2.1 (by decide)⟩

/--
C1 (amended): for a well-formed log state, after an author's successful
undo followed immediately by that author's successful redo (so nothing at
all intervenes), the resulting `ops` contains exactly the operations of the
sequence before the undo (a permutation — equal as a multiset and hence as
a set), and `undoStack`, the per-user index and the identity counter are
restored exactly; but `ops` is not necessarily restored in element order
(see the counterexample: the redone operation can be re-inserted at a
different position when it is older than every remaining operation).
-/
theorem C1_undo_redo_roundtrip (s : DrawingState) (u : String) (hwf : WF s)
    (h1 : (s.undo u).1.success = true)
    (h2 : ((s.undo u).2.redo u).1.success = true) :
    ((s.undo u).2.redo u).2.ops.Perm s.ops ∧
    ((s.undo u).2.redo u).2.undoStack = s.undoStack ∧
    ((s.undo u).2.redo u).2.userOperations = s.userOperations ∧
    ((s.undo u).2.redo u).2.nextOpId = s.nextOpId := by
  obtain ⟨op, l, hop, hag, hlast, hmem, hperm, hstack, huo, hnext, _, _⟩ :=
    undo_success_parts h1
  have hauthor : op.userId = u :=
    hwf.1 op hmem (u, l) (aget_mem hag) (getLast?_mem hlast)
  have hfind : (s.undo u).2.undoStack.reverse.find?
      (fun o => o.userId == u) = some op := by
    rw [hstack, List.reverse_append]
    have hpred : (fun o => o.userId == u) op = true := by
      simp [hauthor]
    simp only [List.reverse_cons, List.reverse_nil, List.nil_append,
      List.singleton_append]
    exact List.find?_cons_of_pos _ hpred
  obtain ⟨op2, hop2, hfind2, hb2, hops2, hstack2, huo2, hnext2, _⟩ :=
    redo_success_parts h2
  rw [hfind] at hfind2
  have hopeq : op2 = op := (Option.some_inj.mp hfind2).symm
  subst hopeq
  refine ⟨?_, ?_, ?_, ?_⟩
  · rw [hops2]
    exact (insertAt_perm _ _ _).trans hperm.symm
  · rw [hstack2, hstack, List.dropLast_concat]
  · rw [huo2, huo, mapPushId_aupdate_dropLast hag hlast]
  · rw [hnext2, hnext]

/-- C1 counterexample: A draws (timestamp 1), B draws a non-overlapping
stroke (timestamp 2); A undoes and immediately redoes — both succeed and
nothing intervenes, yet the resulting `ops` is `[B, A]` where it was
`[A, B]` before the undo: the same set, in a different order. -/
theorem C1_counterexample :
    (sAB.undo "A").1.success = true ∧
    ((sAB.undo "A").2.redo "A").1.success = true ∧
    ((sAB.undo "A").2.redo "A").2.ops ≠ sAB.ops ∧
    ((sAB.undo "A").2.redo "A").2.ops.map Op.opId = [2, 1] ∧
    sAB.ops.map Op.opId = [1, 2] := by decide

/-- C1 witness: the amended round-trip statement at the concrete two-user
state. -/
theorem C1_witness :
    ((sAB.undo "A").2.redo "A").2.ops.Perm sAB.ops ∧
    ((sAB.undo "A").2.redo "A").2.undoStack = sAB.undoStack ∧
    ((sAB.undo "A").2.redo "A").2.userOperations = sAB.userOperations ∧
    ((sAB.undo "A").2.redo "A").2.nextOpId = sAB.nextOpId :=
  C1_undo_redo_roundtrip sAB "A" (by decide) (by decide) (by decide)

/--
C4 refuted (code bug): a state reachable by addOperation/undo/redo calls
(with a nondecreasing clock) whose `ops` is NOT sorted by timestamp
ascending, immediately after a redo: A draws at timestamp 1, B draws a
non-overlapping stroke at timestamp 2, A undoes and redoes; the redo's
reinsertion scan finds no op with timestamp at most 1, leaves `insertIndex`
at its initial value `ops.length`, and appends A's op after B's, yielding
timestamps `[2, 1]` — contradicting the source's own comment that the scan
maintains chronological order.
-/
theorem C4_code_bug_unsorted :
    Reachable ((sAB.undo "A").2.redo "A").2 2 ∧
    timestampsSorted ((sAB.undo "A").2.redo "A").2.ops = false := by
  constructor
  · exact Reachable.redoStep (Reachable.undoStep
      (Reachable.add (Reachable.add Reachable.init (by decide)) (by decide)))
  · decide

/--
C5 (amended): `addOperation` stamps the new operation with the current
clock reading; since the clock (`Date.now()`) is nondecreasing but can
repeat, the new operation's timestamp is greater than or equal to — not
strictly greater than — every timestamp previously assigned by the log in
any reachable state, whether the carrying operation is currently applied
(in `ops`) or undone (in `undoStack`).
-/
theorem C5_timestamps_nondecreasing (s : DrawingState) (c now : Nat)
    (u : String) (rawOp : RawOp) (h : Reachable s c) (hc : c ≤ now) :
    ∀ o : Op, (o ∈ s.ops ∨ o ∈ s.undoStack) →
      o.timestamp ≤ ((s.addOperation u rawOp now).1).timestamp := by
  intro o ho
  have hle := reachable_timestamp_le h o ho
  have hts : ((s.addOperation u rawOp now).1).timestamp = now := rfl
  rw [hts]
  omega

/-- The state after A draws once at clock 5. -/
def sA5 : DrawingState := (initState.addOperation "A" rawA 5).2

/-- C5 counterexample: two `addOperation` calls within the same clock
millisecond (a legal behavior of `Date.now()`, which is nondecreasing but
not strictly increasing) assign equal timestamps: the second op's
timestamp 5 is not strictly greater than the already-assigned timestamp 5. -/
theorem C5_counterexample :
    Reachable (sA5.addOperation "A" rawA 5).2 5 ∧
    ((sA5.addOperation "A" rawA 5).1).timestamp = 5 ∧
    sA5.ops.map Op.timestamp = [5] := by
  refine ⟨?_, by decide, by decide⟩
  exact Reachable.add (Reachable.add Reachable.init (by decide)) (by decide)

/-- C5 witness: the nondecreasing bound applied at the concrete one-op
state with a repeated clock reading. -/
theorem C5_witness :
    ((initState.addOperation "A" rawA 5).1).timestamp ≤
      ((sA5.addOperation "A" rawA 5).1).timestamp :=
  C5_timestamps_nondecreasing sA5 5 5 "A" rawA
    (Reachable.add Reachable.init (by decide)) (by decide)
    ((initState.addOperation "A" rawA 5).1) (Or.inl (by decide))

/--
C7 (amended): the server performs no structural validation of a draw: for
a bound connection, any draw — even one whose op path has fewer than 2
points — is appended to `ops` by `addOperation` and broadcast to the room
(only the client's own `flushPath` filters short or invalid paths before
sending; only a JSON-unparsable frame is dropped server-side).
-/
theorem C7_malformed_draw_accepted (s : DrawingState) (u : String)
    (rawOp : RawOp) (now : Nat)
    (_hdeg : (rawOp.path.getD []).length < 2) :
    (handleMessage true s u (.draw rawOp) now).1.ops
        = s.ops ++ [(s.addOperation u rawOp now).1] ∧
    (handleMessage true s u (.draw rawOp) now).2
        = [OutEvent.broadcastOp (s.addOperation u rawOp now).1] :=
  ⟨rfl, rfl⟩

/-- C7 counterexample: a draw with an empty path from a bound connection is
appended to the log and broadcast — refuting the claimed server-side
rejection. -/
theorem C7_counterexample :
    (handleMessage true initState "A" (.draw degRaw) 1).1.ops.length = 1 ∧
    (handleMessage true initState "A" (.draw degRaw) 1).2
        = [OutEvent.broadcastOp ((initState.addOperation "A" degRaw 1).1)] := by
  decide

/-- C7 witness: the amended statement at the concrete empty-path draw. -/
theorem C7_witness :
    (handleMessage true initState "A" (.draw degRaw) 1).1.ops
        = initState.ops ++ [(initState.addOperation "A" degRaw 1).1] ∧
    (handleMessage true initState "A" (.draw degRaw) 1).2
        = [OutEvent.broadcastOp (initState.addOperation "A" degRaw 1).1] :=
  C7_malformed_draw_accepted initState "A" degRaw 1 (by decide)

/--
C8 (amended): for a connection not bound to any room, `undo`, `redo` and
`clear` receive a reply-only 'Not in a room' failure and nothing is
broadcast and the state is unchanged; but an unbound `draw` is dropped
silently — no reply is sent at all (the handler logs and returns), and
nothing is broadcast.
-/
theorem C8_unbound_handling (s : DrawingState) (u : String) (rawOp : RawOp)
    (now : Nat) :
    handleMessage false s u (.draw rawOp) now = (s, []) ∧
    handleMessage false s u .undo now
        = (s, [OutEvent.reply "undo" "Not in a room"]) ∧
    handleMessage false s u .redo now
        = (s, [OutEvent.reply "redo" "Not in a room"]) ∧
    handleMessage false s u .clear now
        = (s, [OutEvent.reply "clear" "Not in a room"]) :=
  ⟨rfl, rfl, rfl, rfl⟩

/-- C8 counterexample: an unbound connection's draw produces NO outbound
event at all — in particular no failure reply — refuting the claim's 'an
unbound connection's draw receives a failure reply'. -/
theorem C8_counterexample :
    handleMessage false initState "A" (.draw rawA) 1 = (initState, []) := by
  decide

/-- The overlap relation exactly as claim C9 words it: BOTH axis-aligned
bounding boxes are expanded on every side by the greater of the two
operations' stroke widths, and the (closed) expanded boxes intersect. -/
@[reducible] def bothExpandedOverlap (o1 o2 : Op) (p1 p2 : List Point) : Prop :=
  let b1 := getPathBoundingBox p1
  let b2 := getPathBoundingBox p2
  let pad := max o1.width o2.width
  b2.minX - pad ≤ b1.maxX + pad ∧ b1.minX - pad ≤ b2.maxX + pad ∧
  b2.minY - pad ≤ b1.maxY + pad ∧ b1.minY - pad ≤ b2.maxY + pad

/-- The overlap relation the code actually implements (amended claim): the
greater stroke width is applied ONCE per axis comparison — equivalently,
ONE box is expanded on every side by the greater width and intersected
with the other, unexpanded box (closed boxes). -/
@[reducible] def singleExpandedOverlap (o1 o2 : Op) (p1 p2 : List Point) : Prop :=
  let b1 := getPathBoundingBox p1
  let b2 := getPathBoundingBox p2
  let pad := max o1.width o2.width
  b2.minX ≤ b1.maxX + pad ∧ b1.minX ≤ b2.maxX + pad ∧
  b2.minY ≤ b1.maxY + pad ∧ b1.minY ≤ b2.maxY + pad

/--
C9 (amended): for two operations with present, at-least-2-point paths and
nonzero stroke widths, the conflict predicate `operationsOverlap` holds
exactly when the bounding boxes intersect after expanding by the greater of
the two stroke widths applied once per axis (one box expanded on every
side by the greater width, the other left unexpanded) — not when both
boxes are expanded, as the claim states.
-/
theorem C9_overlap_characterization (o1 o2 : Op) (p1 p2 : List Point)
    (h1 : o1.path = some p1) (h2 : o2.path = some p2)
    (hl1 : 2 ≤ p1.length) (hl2 : 2 ≤ p2.length)
    (hw1 : o1.width ≠ 0) (hw2 : o2.width ≠ 0) :
    operationsOverlap o1 o2 = true ↔ singleExpandedOverlap o1 o2 p1 p2 := by
  unfold operationsOverlap
  simp only [h1, h2]
  rw [if_neg (by omega)]
  simp only [jsWidth, if_neg hw1, if_neg hw2, singleExpandedOverlap]
  simp only [Bool.not_eq_true', Bool.or_eq_false_iff, decide_eq_false_iff_not,
    not_lt]
  tauto

/-- A stroke with bounding box x in [3,4], y in [0,1], width 1. -/
def opN2 : Op :=
  { opId := 2, userId := "B", path := some [⟨3, 0⟩, ⟨4, 1⟩],
    color := "#000000", width := 1, mode := "brush", timestamp := 2 }

/-- A stroke with bounding box [0,1] x [0,1], width 1. -/
def opN1 : Op :=
  { opId := 1, userId := "A", path := some [⟨0, 0⟩, ⟨1, 1⟩],
    color := "#000000", width := 1, mode := "brush", timestamp := 1 }

/-- A stroke with bounding box x in [1,2], y in [0,1], width 1,
overlapping `opN1`. -/
def opN3 : Op :=
  { opId := 3, userId := "B", path := some [⟨1, 0⟩, ⟨2, 1⟩],
    color := "#000000", width := 1, mode := "brush", timestamp := 3 }

/-- C9 counterexample: boxes [0,1] and [3,4] on the x-axis with both widths
1: expanding BOTH boxes by 1 makes them touch at x = 2, so the claim's
predicate holds, but the code compares `box1.maxX + padding < box2.minX`
(2 < 3) and reports no overlap. -/
theorem C9_counterexample :
    operationsOverlap opN1 opN2 = false ∧
    bothExpandedOverlap opN1 opN2 [⟨0, 0⟩, ⟨1, 1⟩] [⟨3, 0⟩, ⟨4, 1⟩] := by
  exact ⟨by decide, by decide⟩

/-- C9 witness: the characterization at a concrete overlapping pair. -/
theorem C9_witness :
    operationsOverlap opN1 opN3 = true ↔
      singleExpandedOverlap opN1 opN3 [⟨0, 0⟩, ⟨1, 1⟩] [⟨1, 0⟩, ⟨2, 1⟩] :=
  C9_overlap_characterization opN1 opN3 _ _ rfl rfl (by decide) (by decide)
    (by decide) (by decide)

/--
C10: the spatial-overlap check reports no overlap whenever either operation
has a missing path or a path with fewer than two points; consequently a
RedoConflict can only ever arise from a non-degenerate candidate together
with a strictly newer non-degenerate operation in `ops` — a degenerate
operation never blocks a redo, and a degenerate candidate never conflicts.
-/
theorem C10_degenerate_never_conflicts :
    (∀ o1 o2 : Op, (degenerateOp o1 = true ∨ degenerateOp o2 = true) →
      operationsOverlap o1 o2 = false) ∧
    (∀ (s : DrawingState) (u : String),
      (s.redo u).1.message = "Cannot redo due to newer overlapping operations" →
      ∃ cand, cand ∈ s.undoStack ∧ cand.userId = u ∧
        degenerateOp cand = false ∧
        ∃ e ∈ s.ops, degenerateOp e = false ∧ cand.timestamp < e.timestamp) := by
  constructor
  · intro o1 o2 h
    exact operationsOverlap_degenerate h
  · intro s u hm
    obtain ⟨_, _, op, hfind, hb⟩ := redo_conflict_parts hm
    have hmem : op ∈ s.undoStack :=
      List.mem_reverse.mp (List.mem_of_find?_eq_some hfind)
    have huid : op.userId = u := by
      simpa using List.find?_some hfind
    unfold hasNewerOverlap at hb
    by_cases hts : op.timestamp < latestTimestamp s.ops
    · rw [if_pos hts] at hb
      obtain ⟨e, hemem, hecond⟩ := List.any_eq_true.mp hb
      rw [Bool.and_eq_true] at hecond
      have hoverlap : operationsOverlap e op = true := hecond.2
      have hlt : op.timestamp < e.timestamp := by
        have := hecond.1
        simpa using this
      obtain ⟨hde, hdo⟩ := operationsOverlap_nondegenerate hoverlap
      exact ⟨op, hmem, huid, hdo, e, hemem, hde, hlt⟩
    · rw [if_neg hts] at hb
      simp at hb

/-- C10 witness: a single-point op never overlaps anything. -/
theorem C10_witness :
    operationsOverlap
      { opId := 9, userId := "A", path := some [⟨0, 0⟩], color := "#000000",
        width := 4, mode := "brush", timestamp := 1 } opN2 = false :=
  C10_degenerate_never_conflicts.1 _ opN2 (Or.inl (by decide))

end Collab
